import Mathlib

/-!
Verification of the cargo-husky build script (`src/build.rs`).

The build script locates the enclosing `.git` directory (following `.git`-file
indirection), checks whether a hook generated by the same version of the tool
is already installed, and otherwise (re)writes the hook script with execute
permissions.

Shallow embedding conventions:
* A filesystem path is its list of components from the root (`Path`); the root
  itself is `[]`.  `PathBuf::push`/`join` is list append, `PathBuf::pop` drops
  the last component (and fails on `[]`, exactly as `pop` returns `false` for
  `/`).
* The filesystem is an association list from paths to entries (`FS`); an entry
  is a directory or a regular file carrying its text content and its
  permission bits.
* Rust `String` is Lean `String`; where the Rust code iterates over bytes or
  characters we work on `String.data : List Char`.
* `env::var("OUT_DIR")` is passed in explicitly, already canonicalized, both
  as a `Path` (for directory resolution) and as the raw string displayed in
  the generated script.  The compile-time `env!` constants
  (`CARGO_PKG_VERSION`, `CARGO_PKG_HOMEPAGE`, `CARGO_MANIFEST_DIR`,
  `path::MAIN_SEPARATOR`) are parameters.
* Fallible operations return `Except Error`, mirroring `Result<T, Error>`.
-/

set_option maxRecDepth 40000

namespace CargoHusky

/-- Error type of the build script (`enum Error` in `src/build.rs`).  Payloads
of `Io` and `OutDir` are irrelevant to control flow and omitted. -/
inductive Error where
  | GitDirNotFound
  | Io
  | OutDir
deriving DecidableEq

/-- A filesystem path, as its list of components below the root. -/
abbrev Path := List String

/-- A directory entry: a directory, or a regular file with text content and
POSIX permission bits. -/
inductive Entry where
  | dir
  | file (content : String) (mode : Nat)
deriving DecidableEq

/-- A filesystem: a finite map from paths to entries, as an association list
(first binding wins). -/
abbrev FS := List (Path × Entry)

/-- Look up the entry at a path. -/
def find : FS → Path → Option Entry
  | [], _ => none
  | (q, e) :: rest, p => if q = p then some e else find rest p

/-- Models `std::path::Path::is_dir`. -/
def is_dir (fs : FS) (p : Path) : Bool :=
  match find fs p with
  | some Entry.dir => true
  | _ => false

/-- Models `Path::is_file` combined with `File::open` + `read_to_string`:
returns the content when the entry is a regular file. -/
def fileContent (fs : FS) (p : Path) : Option String :=
  match find fs p with
  | some (Entry.file c _) => some c
  | _ => none

/-- Replace (or insert) the entry at a path. -/
def set_entry : FS → Path → Entry → FS
  | [], p, e => [(p, e)]
  | (q, old) :: rest, p, e =>
    if q = p then (p, e) :: rest else (q, old) :: set_entry rest p e

/-- Split a character list at every occurrence of `sep`.  The result is never
empty; a trailing `sep` yields a trailing empty segment. -/
def split_on_char (sep : Char) : List Char → List (List Char)
  | [] => [[]]
  | c :: rest =>
    if c = sep then [] :: split_on_char sep rest
    else
      match split_on_char sep rest with
      | [] => [[c]]
      | l :: ls => (c :: l) :: ls

/-- Drop a single trailing `'\r'`, as `BufRead::lines` does after removing the
`'\n'` terminator. -/
def strip_cr (l : List Char) : List Char :=
  if l.getLast? = some '\r' then l.dropLast else l

/-- Drop the final empty fragment of a split (the fragment after a trailing
newline), which `lines()` never yields. -/
def strip_empty_last (parts : List (List Char)) : List (List Char) :=
  if parts.getLast? = some [] then parts.dropLast else parts

/-- One line as yielded by `lines()`: the fragment with a single trailing
`'\r'` removed, as a `String`. -/
def strip_cr_string (l : List Char) : String :=
  String.mk (strip_cr l)

/-- Models Rust `BufRead::lines` on the full content: split at `'\n'`, drop
the final fragment when the content ends with a newline (the iterator yields
nothing after the last terminator), and strip one trailing `'\r'` per line. -/
def rust_lines (s : String) : List String :=
  (strip_empty_last (split_on_char '\n' s.data)).map strip_cr_string

/-- Helper for `trim_right_matches_nl_cr`, working on the reversed character
list: repeatedly remove a trailing `"\n\r"` (i.e. a leading `'\r', '\n'` of
the reversal). -/
def trimRevNlCr : List Char → List Char
  | '\r' :: '\n' :: rest => trimRevNlCr rest
  | l => l

/-- Models `buf.trim_right_matches("\n\r")`: repeatedly remove the exact
two-character suffix `"\n\r"` (LF then CR).  A bare trailing `"\n"`, or a
trailing `"\r\n"`, is not removed. -/
def trim_right_matches_nl_cr (s : String) : String :=
  String.mk (trimRevNlCr s.data.reverse).reverse

/-- Does `pat` occur as a contiguous sublist of the second argument?  Working
part of `str_contains`. -/
def contains_sub (pat : List Char) : List Char → Bool
  | [] => pat.isEmpty
  | c :: rest => pat.isPrefixOf (c :: rest) || contains_sub pat rest

/-- Models Rust `str::contains` with a literal pattern. -/
def str_contains (hay pat : String) : Bool :=
  contains_sub pat.data hay.data

/-- Models `PathBuf::from(s)` followed by filesystem access: a string starting
with `'/'` is an absolute path, anything else is resolved against the current
working directory.  Components are the non-empty `'/'`-separated pieces. -/
def pathOfString (cwd : Path) (s : String) : Path :=
  let comps := ((split_on_char '/' s.data).map String.mk).filter (fun c => c ≠ "")
  match s.data with
  | '/' :: _ => comps
  | _ => cwd ++ comps

/-- One iteration of the `loop` in `resolve_gitdir`, at directory `dir`: if
`<dir>/.git` is a directory, the result is that directory; if it is a regular
file, read it, trim trailing `"\n\r"` sequences, and require the referenced
path to be a directory (a terminal failure otherwise); if there is no `.git`
entry the loop continues (`none`). -/
def git_entry_check (fs : FS) (cwd : Path) (dir : Path) :
    Option (Except Error Path) :=
  if is_dir fs (dir ++ [".git"]) then some (Except.ok (dir ++ [".git"]))
  else
    match fileContent fs (dir ++ [".git"]) with
    | some buf =>
      some (if is_dir fs (pathOfString cwd (trim_right_matches_nl_cr buf)) then
              Except.ok (pathOfString cwd (trim_right_matches_nl_cr buf))
            else Except.error Error.GitDirNotFound)
    | none => none

/-- The `loop` of `resolve_gitdir`.  `rdir` is the reversed component list of
the current directory, so `PathBuf::pop` is `List.tail` and the recursion is
structural; when `pop` fails (at the root, `[]`) the result is
`GitDirNotFound`. -/
def resolve_loop (fs : FS) (cwd : Path) : List String → Except Error Path
  | [] => (git_entry_check fs cwd []).getD (Except.error Error.GitDirNotFound)
  | r :: rest =>
    match git_entry_check fs cwd ((r :: rest).reverse) with
    | some res => res
    | none => resolve_loop fs cwd rest

/-- Models `resolve_gitdir` in `src/build.rs`.  The starting directory (the
canonicalized `OUT_DIR`) is passed explicitly as `out_dir`; `cwd` is the
process working directory used to resolve a relative indirection path. -/
def resolve_gitdir (fs : FS) (cwd : Path) (out_dir : Path) : Except Error Path :=
  resolve_loop fs cwd out_dir.reverse

/-- Models `hook_already_exists`: open the hook file (any failure, including
absence, yields `false`), read the third line (`lines().nth(2)`), and check
that it contains `"set by cargo-husky v<version>"`. -/
def hook_already_exists (version : String) (fs : FS) (hook : Path) : Bool :=
  match fileContent fs hook with
  | none => false
  | some content =>
    match (rust_lines content)[2]? with
    | none => false
    | some line => str_contains line ("set by cargo-husky v" ++ version)

/-- The `script` local of `write_script`: the command lines appended for the
enabled feature groups. -/
def scriptStr (run_cargo_test run_cargo_clippy : Bool) : String :=
  (if run_cargo_test then "\necho '+cargo test'\ncargo test" else "") ++
  (if run_cargo_clippy then "\necho '+cargo clippy'\ncargo clippy" else "")

/-- Models `write_script`: the full text written to the hook file.  Each
quoted line below is one line of the raw string literal in `src/build.rs`;
`writeln!` appends the final newline. -/
def write_script (run_cargo_test run_cargo_clippy : Bool)
    (version homepage manifest_dir : String) (sep : Char) (out_dir : String) :
    String :=
  "#!/bin/sh" ++ "\n" ++
  "#" ++ "\n" ++
  "# This hook was set by cargo-husky v" ++ version ++ ": " ++ homepage ++ "\n" ++
  "# Generated by script " ++ manifest_dir ++ String.singleton sep ++ "build.rs" ++ "\n" ++
  "# Output at " ++ out_dir ++ "\n" ++
  "#" ++ "\n" ++
  "" ++ "\n" ++
  "set -e" ++ "\n" ++
  scriptStr run_cargo_test run_cargo_clippy ++ "\n"

/-- The lines following `set -e` in a generated script, per feature
combination: the blank line produced by the trailing newline when no command
group is enabled, and otherwise an `echo` label plus command per enabled
group, `run-cargo-test` first. -/
def tail_lines : Bool → Bool → List String
  | false, false => [""]
  | true, false => ["", "echo '+cargo test'", "cargo test"]
  | false, true => ["", "echo '+cargo clippy'", "cargo clippy"]
  | true, true =>
    ["", "echo '+cargo test'", "cargo test", "echo '+cargo clippy'", "cargo clippy"]

/-- Models the non-win32 `create_script`:
`OpenOptions::new().write(true).create(true).truncate(true).mode(0o755).open(path)`.
Per POSIX `open(2)` (and the documentation of `OpenOptionsExt::mode`), the
mode is used only when a new file is created; an existing regular file is
truncated and keeps its permission bits.  Opening requires the parent
directory to exist, and fails on an existing directory.  Returns the
permission bits the opened file ends up with. -/
def create_script (fs : FS) (p : Path) : Except Error Nat :=
  if is_dir fs p.dropLast then
    match find fs p with
    | none => Except.ok 0o755
    | some (Entry.file _ m) => Except.ok m
    | some Entry.dir => Except.error Error.Io
  else Except.error Error.Io

/-- Models `install`: resolve the git directory, build
`<gitdir>/hooks/<hook>`, and unless a hook installed by this version already
exists there, create the file and write the generated script into it. -/
def install (fs : FS) (cwd out_dir : Path)
    (run_cargo_test run_cargo_clippy : Bool)
    (version homepage manifest_dir : String) (sep : Char) (out_dir_str : String)
    (hook : String) : Except Error FS :=
  match resolve_gitdir fs cwd out_dir with
  | Except.error e => Except.error e
  | Except.ok p =>
    let hook_path := p ++ ["hooks", hook]
    if hook_already_exists version fs hook_path then Except.ok fs
    else
      match create_script fs hook_path with
      | Except.error e => Except.error e
      | Except.ok mode =>
        Except.ok (set_entry fs hook_path
          (Entry.file
            (write_script run_cargo_test run_cargo_clippy version homepage
              manifest_dir sep out_dir_str)
            mode))

/-- Decidable equality for `Except`, needed to evaluate concrete runs. -/
instance {ε α : Type} [DecidableEq ε] [DecidableEq α] :
    DecidableEq (Except ε α) := fun a b =>
  match a, b with
  | Except.ok x, Except.ok y =>
    if h : x = y then isTrue (by rw [h])
    else isFalse (fun hh => by cases hh; exact h rfl)
  | Except.error x, Except.error y =>
    if h : x = y then isTrue (by rw [h])
    else isFalse (fun hh => by cases hh; exact h rfl)
  | Except.ok _, Except.error _ => isFalse (fun hh => by cases hh)
  | Except.error _, Except.ok _ => isFalse (fun hh => by cases hh)

/-! Concrete filesystems used to evaluate the program on specific inputs. -/

/-- A repository whose `/repo/.git` is an indirection file in git's actual
on-disk format, `gitdir: /real/git/common/dir\n`, with the referenced
directory present. -/
def fs_indirect_prefixed : FS :=
  [([], Entry.dir), (["repo"], Entry.dir),
   (["repo", ".git"], Entry.file "gitdir: /real/git/common/dir\n" 0o644),
   (["real"], Entry.dir), (["real", "git"], Entry.dir),
   (["real", "git", "common"], Entry.dir),
   (["real", "git", "common", "dir"], Entry.dir)]

/-- A repository whose `/repo/.git` indirection file holds the bare target
path terminated by the two-character sequence `"\n\r"` (LF then CR). -/
def fs_indirect_nl_cr : FS :=
  [([], Entry.dir), (["repo"], Entry.dir),
   (["repo", ".git"], Entry.file "/real/git/common/dir\n\r" 0o644),
   (["real"], Entry.dir), (["real", "git"], Entry.dir),
   (["real", "git", "common"], Entry.dir),
   (["real", "git", "common", "dir"], Entry.dir)]

/-- A repository whose `/repo/.git` indirection file holds the bare target
path terminated by a single LF. -/
def fs_indirect_lf : FS :=
  [([], Entry.dir), (["repo"], Entry.dir),
   (["repo", ".git"], Entry.file "/real/git/common/dir\n" 0o644),
   (["real"], Entry.dir), (["real", "git"], Entry.dir),
   (["real", "git", "common"], Entry.dir),
   (["real", "git", "common", "dir"], Entry.dir)]

/-- A tree where `/a/.git` is a directory but the nearer ancestor `/a/b` has a
`.git` regular file pointing at the existing directory `/x`. -/
def fs_intercepted : FS :=
  [([], Entry.dir), (["a"], Entry.dir), (["a", ".git"], Entry.dir),
   (["a", "b"], Entry.dir), (["a", "b", ".git"], Entry.file "/x" 0o644),
   (["x"], Entry.dir)]

/-- A tree where `/a/.git` is a directory but the nearer ancestor `/a/b` has a
`.git` regular file whose content names no existing directory. -/
def fs_bad_indirect : FS :=
  [([], Entry.dir), (["a"], Entry.dir), (["a", ".git"], Entry.dir),
   (["a", "b"], Entry.dir), (["a", "b", ".git"], Entry.file "/nonexistent" 0o644)]

/-- A fresh repository with an empty `hooks` directory and a nested build
output directory. -/
def fs_fresh_repo : FS :=
  [([], Entry.dir), (["repo"], Entry.dir), (["repo", ".git"], Entry.dir),
   (["repo", ".git", "hooks"], Entry.dir),
   (["repo", "target"], Entry.dir), (["repo", "target", "debug"], Entry.dir)]

/-- A repository with a pre-existing hand-written `pre-push` hook (three
lines, no version marker, mode `0644`) and an unrelated two-line file. -/
def fs_existing_hook : FS :=
  [([], Entry.dir), (["repo"], Entry.dir), (["repo", ".git"], Entry.dir),
   (["repo", ".git", "hooks"], Entry.dir),
   (["repo", ".git", "hooks", "pre-push"],
     Entry.file "#!/bin/sh\n#\n# hand written hook\n" 0o644),
   (["repo", "short.txt"], Entry.file "hi" 0o644)]

/-- A directory tree with no `.git` entry anywhere. -/
def fs_no_git : FS :=
  [([], Entry.dir), (["home"], Entry.dir), (["home", "user"], Entry.dir)]

/-! Helper lemmas about the filesystem map. -/

theorem find_set_entry_self (fs : FS) (p : Path) (e : Entry) :
    find (set_entry fs p e) p = some e := by
  induction fs with
  | nil => simp [set_entry, find]
  | cons hd tl ih =>
    obtain ⟨q, old⟩ := hd
    by_cases hq : q = p
    · simp [set_entry, hq, find]
    · simp [set_entry, hq, find, ih]

theorem find_set_entry_ne (fs : FS) (p q : Path) (e : Entry) (h : q ≠ p) :
    find (set_entry fs p e) q = find fs q := by
  have hpq : ¬p = q := fun hh => h hh.symm
  induction fs with
  | nil => simp [set_entry, find, hpq]
  | cons hd tl ih =>
    obtain ⟨r, old⟩ := hd
    by_cases hr : r = p
    · subst hr
      simp [set_entry, find, hpq]
    · by_cases hrq : r = q <;> simp [set_entry, hr, find, hrq, ih, h]

/-! Helper lemmas about `split_on_char`. -/

theorem split_on_char_ne_nil (sep : Char) (l : List Char) :
    split_on_char sep l ≠ [] := by
  cases l with
  | nil => simp [split_on_char]
  | cons c rest =>
    simp only [split_on_char]
    by_cases hc : c = sep
    · simp [hc]
    · simp only [if_neg hc]
      cases split_on_char sep rest <;> simp

theorem split_on_char_append (sep : Char) (a b : List Char) (h : sep ∉ a) :
    split_on_char sep (a ++ b) =
      (a ++ (split_on_char sep b).headD []) :: (split_on_char sep b).tail := by
  induction a with
  | nil =>
    simp only [List.nil_append]
    cases hb : split_on_char sep b with
    | nil => exact absurd hb (split_on_char_ne_nil sep b)
    | cons x xs => simp
  | cons c t ih =>
    have hc : ¬c = sep := fun e => h (e ▸ List.mem_cons_self c t)
    have ht : sep ∉ t := fun m => h (List.mem_cons_of_mem _ m)
    simp only [List.cons_append, split_on_char, if_neg hc, List.append_eq]
    rw [ih ht]

theorem split_on_char_cons_self (sep : Char) (b : List Char) :
    split_on_char sep (sep :: b) = [] :: split_on_char sep b := by
  simp [split_on_char]

theorem split_on_char_append_cons (sep : Char) (a b : List Char) (h : sep ∉ a) :
    split_on_char sep (a ++ sep :: b) = a :: split_on_char sep b := by
  rw [split_on_char_append sep a _ h, split_on_char_cons_self]
  simp

/-- The last segment of a split of a list ending in the separator is empty,
and such a split has at least two segments. -/
theorem split_on_char_append_self_getLast (sep : Char) (x : List Char) :
    (split_on_char sep (x ++ [sep])).getLast? = some [] ∧
      2 ≤ (split_on_char sep (x ++ [sep])).length := by
  induction x with
  | nil => simp [split_on_char]
  | cons c t ih =>
    obtain ⟨hl, hlen⟩ := ih
    by_cases hc : c = sep
    · subst hc
      rw [List.cons_append, split_on_char_cons_self]
      constructor
      · have hne : split_on_char c (t ++ [c]) ≠ [] := split_on_char_ne_nil _ _
        cases hS : split_on_char c (t ++ [c]) with
        | nil => exact absurd hS hne
        | cons y ys => rw [hS] at hl; simp [hl]
      · simpa using Nat.le_succ_of_le hlen
    · rw [List.cons_append]
      simp only [split_on_char, if_neg hc]
      cases hS : split_on_char sep (t ++ [sep]) with
      | nil => exact absurd hS (split_on_char_ne_nil _ _)
      | cons y ys =>
        rw [hS] at hl hlen
        cases ys with
        | nil => simp at hlen
        | cons z zs =>
          constructor
          · simpa [List.getLast?_cons_cons] using hl
          · simp

/-! Helper lemmas about `strip_cr`, `trim_right_matches_nl_cr` and
`contains_sub`. -/

theorem strip_cr_of_not_mem (l : List Char) (h : '\r' ∉ l) :
    strip_cr l = l := by
  unfold strip_cr
  cases hl : l.getLast? with
  | none => simp
  | some c =>
    by_cases hc : c = '\r'
    · subst hc
      have hmem : '\r' ∈ l := by
        have hopt : '\r' ∈ l.getLast? := by rw [hl]; rfl
        obtain ⟨hne, heq⟩ := List.mem_getLast?_eq_getLast hopt
        rw [heq]
        exact List.getLast_mem hne
      exact absurd hmem h
    · simp [hl, hc]

theorem trim_right_matches_nl_cr_append (s : String) :
    trim_right_matches_nl_cr (s ++ "\n\r") = trim_right_matches_nl_cr s := by
  unfold trim_right_matches_nl_cr
  rw [String.data_append]
  have : (("\n\r" : String).data : List Char) = ['\n', '\r'] := rfl
  rw [this, List.reverse_append]
  rfl

theorem isPrefixOf_self_append (l t : List Char) : l.isPrefixOf (l ++ t) = true := by
  induction l with
  | nil => simp [List.isPrefixOf]
  | cons c cs ih => simp [List.isPrefixOf, ih]

theorem contains_sub_nil (l : List Char) : contains_sub [] l = true := by
  cases l <;> simp [contains_sub, List.isPrefixOf]

theorem contains_sub_append (a pat b : List Char) :
    contains_sub pat (a ++ (pat ++ b)) = true := by
  induction a with
  | nil =>
    rw [List.nil_append]
    cases pat with
    | nil => exact contains_sub_nil _
    | cons c cs =>
      have h1 := isPrefixOf_self_append (c :: cs) b
      rw [List.cons_append] at h1
      simp only [List.cons_append, contains_sub, List.append_eq, h1, Bool.true_or]
  | cons c cs ih =>
    rw [List.cons_append]
    simp only [contains_sub, List.append_eq, ih, Bool.or_true]

/-! Helper lemmas about the generated script text. -/

theorem data_nl : ("\n" : String).data = ['\n'] := rfl

theorem data_empty : ("" : String).data = [] := rfl

theorem data_singleton (c : Char) : (String.singleton c).data = [c] := rfl

theorem mk_data (s : String) : String.mk s.data = s := rfl

theorem split_on_char_cons_ne (sep c : Char) (b : List Char) (h : ¬c = sep) :
    split_on_char sep (c :: b) =
      (c :: (split_on_char sep b).headD []) :: (split_on_char sep b).tail := by
  have h2 : sep ∉ [c] := by
    intro hm
    rw [List.mem_singleton] at hm
    exact h hm.symm
  have h3 := split_on_char_append sep [c] b h2
  simpa using h3

/-- The `'\n'`-split of a generated script: the seven header lines, `set -e`,
and then the split of the command block followed by the final newline. -/
theorem split_write_script (rct rcc : Bool) (v h m : String) (sep : Char) (o : String)
    (hv : '\n' ∉ v.data) (hh : '\n' ∉ h.data) (hm : '\n' ∉ m.data)
    (hs : ¬sep = '\n') (ho : '\n' ∉ o.data) :
    split_on_char '\n' (write_script rct rcc v h m sep o).data =
      ("#!/bin/sh" : String).data :: ("#" : String).data ::
      (("# This hook was set by cargo-husky v" : String).data ++
        (v.data ++ ((": " : String).data ++ h.data))) ::
      (("# Generated by script " : String).data ++
        (m.data ++ (sep :: ("build.rs" : String).data))) ::
      (("# Output at " : String).data ++ o.data) ::
      ("#" : String).data :: [] :: ("set -e" : String).data ::
      split_on_char '\n' ((scriptStr rct rcc).data ++ ['\n']) := by
  have d1 : '\n' ∉ ("#!/bin/sh" : String).data := by decide
  have d2 : '\n' ∉ ("#" : String).data := by decide
  have d3 : '\n' ∉ ("# This hook was set by cargo-husky v" : String).data := by decide
  have d4 : '\n' ∉ (": " : String).data := by decide
  have d5 : '\n' ∉ ("# Generated by script " : String).data := by decide
  have d7 : '\n' ∉ ("build.rs" : String).data := by decide
  have d8 : '\n' ∉ ("# Output at " : String).data := by decide
  have d9 : '\n' ∉ ("set -e" : String).data := by decide
  unfold write_script
  repeat rw [String.data_append]
  rw [data_nl, data_empty, data_singleton]
  repeat rw [List.append_assoc]
  repeat rw [List.singleton_append]
  repeat rw [List.nil_append]
  rw [split_on_char_append_cons '\n' _ _ d1]
  rw [split_on_char_cons_ne '\n' '#' _ (by decide)]
  rw [split_on_char_cons_self]
  rw [split_on_char_append '\n' _ _ d3]
  rw [split_on_char_append '\n' _ _ hv]
  rw [split_on_char_append '\n' _ _ d4]
  rw [split_on_char_append_cons '\n' _ _ hh]
  rw [split_on_char_append '\n' _ _ d5]
  rw [split_on_char_append '\n' _ _ hm]
  rw [split_on_char_cons_ne '\n' sep _ hs]
  rw [split_on_char_append_cons '\n' _ _ d7]
  rw [split_on_char_append '\n' _ _ d8]
  rw [split_on_char_append_cons '\n' _ _ ho]
  rw [split_on_char_cons_ne '\n' '#' _ (by decide)]
  rw [split_on_char_cons_self]
  rw [split_on_char_cons_self]
  rw [split_on_char_append_cons '\n' _ _ d9]
  simp

theorem strip_empty_last_append (A S : List (List Char)) (hne : S ≠ [])
    (hl : S.getLast? = some []) :
    strip_empty_last (A ++ S) = A ++ S.dropLast := by
  unfold strip_empty_last
  rw [List.getLast?_append_of_ne_nil _ hne, hl, if_pos rfl,
    List.dropLast_append_of_ne_nil _ hne]

theorem cons8_append {α : Type} (a b c d e f g i : α) (S : List α) :
    a :: b :: c :: d :: e :: f :: g :: i :: S = [a, b, c, d, e, f, g, i] ++ S := rfl

/-- The exact line sequence of a generated hook script, as read back by
`BufRead::lines`: the seven header comment lines and blank line, `set -e`,
then the command block of the enabled feature groups. -/
theorem rust_lines_write_script (rct rcc : Bool) (v h m : String) (sep : Char)
    (o : String)
    (hv : '\n' ∉ v.data) (hh : '\n' ∉ h.data) (hm : '\n' ∉ m.data)
    (hs : ¬sep = '\n') (ho : '\n' ∉ o.data)
    (rv : '\r' ∉ v.data) (rh : '\r' ∉ h.data) (rm : '\r' ∉ m.data)
    (rs : ¬sep = '\r') (ro : '\r' ∉ o.data) :
    rust_lines (write_script rct rcc v h m sep o) =
      "#!/bin/sh" :: "#" ::
      ("# This hook was set by cargo-husky v" ++ (v ++ (": " ++ h))) ::
      ("# Generated by script " ++ (m ++ (String.singleton sep ++ "build.rs"))) ::
      ("# Output at " ++ o) :: "#" :: "" :: "set -e" :: tail_lines rct rcc := by
  have hSne : split_on_char '\n' ((scriptStr rct rcc).data ++ ['\n']) ≠ [] :=
    split_on_char_ne_nil _ _
  have hSlast := (split_on_char_append_self_getLast '\n' (scriptStr rct rcc).data).1
  unfold rust_lines
  rw [split_write_script rct rcc v h m sep o hv hh hm hs ho]
  rw [cons8_append, strip_empty_last_append _ _ hSne hSlast, List.map_append]
  repeat rw [List.map_cons]
  rw [List.map_nil]
  have e0 : strip_cr_string ("#!/bin/sh" : String).data = "#!/bin/sh" := by decide
  have e1 : strip_cr_string ("#" : String).data = "#" := by decide
  have e6 : strip_cr_string ([] : List Char) = "" := by decide
  have e7 : strip_cr_string ("set -e" : String).data = "set -e" := by decide
  have m2 : '\r' ∉ ("# This hook was set by cargo-husky v" : String).data ++
      (v.data ++ ((": " : String).data ++ h.data)) := by
    intro hmem
    rcases List.mem_append.mp hmem with h1 | h1
    · exact absurd h1 (by decide)
    rcases List.mem_append.mp h1 with h2 | h2
    · exact rv h2
    rcases List.mem_append.mp h2 with h3 | h3
    · exact absurd h3 (by decide)
    · exact rh h3
  have m3 : '\r' ∉ ("# Generated by script " : String).data ++
      (m.data ++ (sep :: ("build.rs" : String).data)) := by
    intro hmem
    rcases List.mem_append.mp hmem with h1 | h1
    · exact absurd h1 (by decide)
    rcases List.mem_append.mp h1 with h2 | h2
    · exact rm h2
    rcases List.mem_cons.mp h2 with h3 | h3
    · exact rs h3.symm
    · exact absurd h3 (by decide)
  have m4 : '\r' ∉ ("# Output at " : String).data ++ o.data := by
    intro hmem
    rcases List.mem_append.mp hmem with h1 | h1
    · exact absurd h1 (by decide)
    · exact ro h1
  have e2 : strip_cr_string (("# This hook was set by cargo-husky v" : String).data ++
      (v.data ++ ((": " : String).data ++ h.data))) =
      "# This hook was set by cargo-husky v" ++ (v ++ (": " ++ h)) := by
    unfold strip_cr_string
    rw [strip_cr_of_not_mem _ m2]
    repeat rw [← String.data_append]
  have e3 : strip_cr_string (("# Generated by script " : String).data ++
      (m.data ++ (sep :: ("build.rs" : String).data))) =
      "# Generated by script " ++ (m ++ (String.singleton sep ++ "build.rs")) := by
    unfold strip_cr_string
    rw [strip_cr_of_not_mem _ m3]
    rw [show (sep :: ("build.rs" : String).data) =
      ((String.singleton sep).data ++ ("build.rs" : String).data) from rfl]
    repeat rw [← String.data_append]
  have e4 : strip_cr_string (("# Output at " : String).data ++ o.data) =
      "# Output at " ++ o := by
    unfold strip_cr_string
    rw [strip_cr_of_not_mem _ m4]
    rw [← String.data_append]
  rw [e0, e1, e2, e3, e4, e6, e7]
  have etail : List.map strip_cr_string
      ((split_on_char '\n' ((scriptStr rct rcc).data ++ ['\n'])).dropLast) =
      tail_lines rct rcc := by
    cases rct <;> cases rcc <;> decide
  rw [etail]
  rfl

/-! Helper lemmas about the directory-resolution loop. -/

theorem suffix_of_cons_of_ne {α : Type} {s : List α} {a : α} {l : List α}
    (h : s <:+ a :: l) (hne : s ≠ a :: l) : s <:+ l := by
  obtain ⟨t, ht⟩ := h
  cases t with
  | nil =>
    simp only [List.nil_append] at ht
    exact absurd ht hne
  | cons x xs =>
    rw [List.cons_append] at ht
    injection ht with h1 h2
    exact ⟨xs, h2⟩

theorem git_entry_check_none (fs : FS) (cwd dir : Path)
    (h : find fs (dir ++ [".git"]) = none) :
    git_entry_check fs cwd dir = none := by
  unfold git_entry_check
  simp [is_dir, fileContent, h]

theorem git_entry_check_dir (fs : FS) (cwd dir : Path)
    (h : is_dir fs (dir ++ [".git"]) = true) :
    git_entry_check fs cwd dir = some (Except.ok (dir ++ [".git"])) := by
  unfold git_entry_check
  simp [h]

theorem git_entry_check_file (fs : FS) (cwd dir : Path) (c : String) (mode : Nat)
    (h : find fs (dir ++ [".git"]) = some (Entry.file c mode)) :
    git_entry_check fs cwd dir =
      some (if is_dir fs (pathOfString cwd (trim_right_matches_nl_cr c)) then
              Except.ok (pathOfString cwd (trim_right_matches_nl_cr c))
            else Except.error Error.GitDirNotFound) := by
  unfold git_entry_check
  have h1 : is_dir fs (dir ++ [".git"]) = false := by
    unfold is_dir
    rw [h]
  have h2 : fileContent fs (dir ++ [".git"]) = some c := by
    unfold fileContent
    rw [h]
  rw [h1, h2]
  simp

/-- If no ancestor of the current directory (given reversed, suffixes of
`rdir` being the ancestors) has any `.git` entry, the loop fails with
`GitDirNotFound`. -/
theorem resolve_loop_none (fs : FS) (cwd : Path) :
    ∀ rdir : List String,
    (∀ s : List String, s <:+ rdir → find fs (s.reverse ++ [".git"]) = none) →
    resolve_loop fs cwd rdir = Except.error Error.GitDirNotFound := by
  intro rdir
  induction rdir with
  | nil =>
    intro h
    unfold resolve_loop
    rw [git_entry_check_none fs cwd [] (h [] ⟨[], rfl⟩)]
    rfl
  | cons r rest ih =>
    intro h
    unfold resolve_loop
    rw [git_entry_check_none fs cwd ((r :: rest).reverse)
      (h (r :: rest) (List.suffix_refl _))]
    exact ih (fun s hs => h s (hs.trans (List.suffix_cons r rest)))

/-- If the ancestor `s0.reverse` has a `.git` directory and no deeper ancestor
(between the current directory and `s0.reverse`, exclusive) has any `.git`
entry, the loop returns that `.git` directory. -/
theorem resolve_loop_dir (fs : FS) (cwd : Path) :
    ∀ (rdir s0 : List String), s0 <:+ rdir →
    is_dir fs (s0.reverse ++ [".git"]) = true →
    (∀ s, s <:+ rdir → s0 <:+ s → s ≠ s0 → find fs (s.reverse ++ [".git"]) = none) →
    resolve_loop fs cwd rdir = Except.ok (s0.reverse ++ [".git"]) := by
  intro rdir
  induction rdir with
  | nil =>
    intro s0 hs hdir _
    obtain ⟨t, ht⟩ := hs
    obtain ⟨-, hs0⟩ := List.append_eq_nil.mp ht
    subst hs0
    unfold resolve_loop
    rw [git_entry_check_dir fs cwd [] hdir]
    rfl
  | cons r rest ih =>
    intro s0 hs hdir habove
    by_cases heq : s0 = r :: rest
    · subst heq
      unfold resolve_loop
      rw [git_entry_check_dir fs cwd ((r :: rest).reverse) hdir]
    · have hcur := habove (r :: rest) (List.suffix_refl _) hs
        (fun e => heq e.symm)
      unfold resolve_loop
      rw [git_entry_check_none fs cwd ((r :: rest).reverse) hcur]
      exact ih s0 (suffix_of_cons_of_ne hs heq) hdir
        (fun s hsuf hs0 hne => habove s (hsuf.trans (List.suffix_cons r rest)) hs0 hne)

/-- If the ancestor `s0.reverse` has a `.git` regular file and no deeper
ancestor has any `.git` entry, the loop dereferences the file: it trims the
content, and either returns the referenced directory or fails terminally —
it never continues walking upward. -/
theorem resolve_loop_file (fs : FS) (cwd : Path) :
    ∀ (rdir s0 : List String) (c : String) (mode : Nat), s0 <:+ rdir →
    find fs (s0.reverse ++ [".git"]) = some (Entry.file c mode) →
    (∀ s, s <:+ rdir → s0 <:+ s → s ≠ s0 → find fs (s.reverse ++ [".git"]) = none) →
    resolve_loop fs cwd rdir =
      (if is_dir fs (pathOfString cwd (trim_right_matches_nl_cr c)) then
        Except.ok (pathOfString cwd (trim_right_matches_nl_cr c))
      else Except.error Error.GitDirNotFound) := by
  intro rdir
  induction rdir with
  | nil =>
    intro s0 c mode hs hfile _
    obtain ⟨t, ht⟩ := hs
    obtain ⟨-, hs0⟩ := List.append_eq_nil.mp ht
    subst hs0
    unfold resolve_loop
    rw [git_entry_check_file fs cwd [] c mode hfile]
    rfl
  | cons r rest ih =>
    intro s0 c mode hs hfile habove
    by_cases heq : s0 = r :: rest
    · subst heq
      unfold resolve_loop
      rw [git_entry_check_file fs cwd ((r :: rest).reverse) c mode hfile]
    · have hcur := habove (r :: rest) (List.suffix_refl _) hs
        (fun e => heq e.symm)
      unfold resolve_loop
      rw [git_entry_check_none fs cwd ((r :: rest).reverse) hcur]
      exact ih s0 c mode (suffix_of_cons_of_ne hs heq) hfile
        (fun s hsuf hs0 hne => habove s (hsuf.trans (List.suffix_cons r rest)) hs0 hne)

/-- A successful resolution is unaffected by changing the filesystem at paths
other than the `.git` entries it inspects and the directory it returns. -/
theorem resolve_loop_congr (fs fs' : FS) (cwd : Path) (g : Path)
    (hgit : ∀ d : Path, find fs' (d ++ [".git"]) = find fs (d ++ [".git"]))
    (hg : find fs' g = find fs g) :
    ∀ rdir, resolve_loop fs cwd rdir = Except.ok g →
      resolve_loop fs' cwd rdir = Except.ok g := by
  have step : ∀ dir : Path, git_entry_check fs cwd dir = some (Except.ok g) →
      git_entry_check fs' cwd dir = some (Except.ok g) := by
    intro dir hrun
    cases hf : find fs (dir ++ [".git"]) with
    | none =>
      rw [git_entry_check_none fs cwd dir hf] at hrun
      exact absurd hrun (by simp)
    | some e =>
      have hf' : find fs' (dir ++ [".git"]) = some e := by rw [hgit dir, hf]
      cases e with
      | dir =>
        have hd : is_dir fs (dir ++ [".git"]) = true := by
          unfold is_dir
          rw [hf]
        have hd' : is_dir fs' (dir ++ [".git"]) = true := by
          unfold is_dir
          rw [hf']
        rw [git_entry_check_dir fs cwd dir hd] at hrun
        rw [git_entry_check_dir fs' cwd dir hd']
        exact hrun
      | file c mode =>
        rw [git_entry_check_file fs cwd dir c mode hf] at hrun
        rw [git_entry_check_file fs' cwd dir c mode hf']
        by_cases htgt : is_dir fs (pathOfString cwd (trim_right_matches_nl_cr c)) = true
        · rw [if_pos htgt] at hrun
          have hge : pathOfString cwd (trim_right_matches_nl_cr c) = g := by
            injection hrun with h1
            injection h1
          have htgt' : is_dir fs' (pathOfString cwd (trim_right_matches_nl_cr c)) = true := by
            unfold is_dir
            rw [hge, hg]
            rw [hge] at htgt
            unfold is_dir at htgt
            exact htgt
          rw [if_pos htgt', hrun]
        · rw [if_neg htgt] at hrun
          exact absurd hrun (by simp)
  have stepn : ∀ dir : Path, git_entry_check fs cwd dir = none →
      git_entry_check fs' cwd dir = none := by
    intro dir hrun
    cases hf : find fs (dir ++ [".git"]) with
    | none =>
      exact git_entry_check_none fs' cwd dir (by rw [hgit dir, hf])
    | some e =>
      cases e with
      | dir =>
        have hd : is_dir fs (dir ++ [".git"]) = true := by
          unfold is_dir
          rw [hf]
        rw [git_entry_check_dir fs cwd dir hd] at hrun
        exact absurd hrun (by simp)
      | file c mode =>
        rw [git_entry_check_file fs cwd dir c mode hf] at hrun
        exact absurd hrun (by simp)
  intro rdir
  induction rdir with
  | nil =>
    intro hrun
    unfold resolve_loop at hrun ⊢
    cases hc : git_entry_check fs cwd [] with
    | none =>
      rw [hc] at hrun
      exact absurd hrun (by simp)
    | some res =>
      rw [hc] at hrun
      simp only [Option.getD_some] at hrun
      subst hrun
      rw [step [] hc]
      rfl
  | cons r rest ih =>
    intro hrun
    unfold resolve_loop at hrun ⊢
    cases hc : git_entry_check fs cwd ((r :: rest).reverse) with
    | none =>
      rw [hc] at hrun
      rw [stepn _ hc]
      exact ih hrun
    | some res =>
      rw [hc] at hrun
      subst hrun
      rw [step _ hc]

/-! Bridging between ancestors-as-prefixes and the reversed loop argument,
and enumeration of prefixes of short concrete lists. -/

theorem prefix_gives_reverse_suffix {α : Type} {a l : List α} (h : a <+: l) :
    a.reverse <:+ l.reverse := by
  rw [List.reverse_suffix]
  exact h

theorem prefix_of_suffix_reverse {α : Type} {s l : List α} (h : s <:+ l.reverse) :
    s.reverse <+: l := by
  rw [← List.reverse_suffix, List.reverse_reverse]
  exact h

theorem prefix_sandwich {α : Type} {a p : List α} (hap : a <+: p) (hpa : p <+: a) :
    p = a :=
  hpa.eq_of_length (Nat.le_antisymm hpa.length_le hap.length_le)

theorem prefix_cases_two {α : Type} {x y : α} {p : List α} (h : p <+: [x, y]) :
    p = [] ∨ p = [x] ∨ p = [x, y] := by
  obtain ⟨t, ht⟩ := h
  cases p with
  | nil => exact Or.inl rfl
  | cons a p1 =>
    injection ht with h1 h2
    cases p1 with
    | nil => exact Or.inr (Or.inl (by rw [h1]))
    | cons b p2 =>
      injection h2 with h3 h4
      cases p2 with
      | nil => exact Or.inr (Or.inr (by rw [h1, h3]))
      | cons c p3 => exact absurd h4 (by simp)

theorem prefix_cases_three {α : Type} {x y z : α} {p : List α}
    (h : p <+: [x, y, z]) :
    p = [] ∨ p = [x] ∨ p = [x, y] ∨ p = [x, y, z] := by
  obtain ⟨t, ht⟩ := h
  cases p with
  | nil => exact Or.inl rfl
  | cons a p1 =>
    injection ht with h1 h2
    cases p1 with
    | nil => exact Or.inr (Or.inl (by rw [h1]))
    | cons b p2 =>
      injection h2 with h3 h4
      cases p2 with
      | nil => exact Or.inr (Or.inr (Or.inl (by rw [h1, h3])))
      | cons c p3 =>
        injection h4 with h5 h6
        cases p3 with
        | nil => exact Or.inr (Or.inr (Or.inr (by rw [h1, h3, h5])))
        | cons d p4 => exact absurd h6 (by simp)

/-! Helper lemmas about the already-installed check and the marker line. -/

theorem hook_already_exists_of_none (v : String) (fs : FS) (p : Path)
    (hfc : fileContent fs p = none) :
    hook_already_exists v fs p = false := by
  unfold hook_already_exists
  rw [hfc]

theorem hook_already_exists_of_content (v : String) (fs : FS) (p : Path)
    (c : String) (hfc : fileContent fs p = some c) :
    hook_already_exists v fs p =
      (match (rust_lines c)[2]? with
       | none => false
       | some line => str_contains line ("set by cargo-husky v" ++ v)) := by
  unfold hook_already_exists
  rw [hfc]

theorem hook_already_exists_of_no_line (v : String) (fs : FS) (p : Path)
    (c : String) (hfc : fileContent fs p = some c)
    (hline : (rust_lines c)[2]? = none) :
    hook_already_exists v fs p = false := by
  rw [hook_already_exists_of_content v fs p c hfc, hline]

theorem hook_already_exists_of_line (v : String) (fs : FS) (p : Path)
    (c line : String) (hfc : fileContent fs p = some c)
    (hline : (rust_lines c)[2]? = some line) :
    hook_already_exists v fs p = str_contains line ("set by cargo-husky v" ++ v) := by
  rw [hook_already_exists_of_content v fs p c hfc, hline]

/-- The marker comment line of a generated script contains the version-marker
substring checked by `hook_already_exists`. -/
theorem marker_line_contains (v h : String) :
    str_contains ("# This hook was set by cargo-husky v" ++ (v ++ (": " ++ h)))
      ("set by cargo-husky v" ++ v) = true := by
  unfold str_contains
  repeat rw [String.data_append]
  rw [show ("# This hook was set by cargo-husky v" : String).data =
    ("# This hook was " : String).data ++ ("set by cargo-husky v" : String).data
    from by decide]
  rw [List.append_assoc]
  rw [← List.append_assoc ("set by cargo-husky v" : String).data v.data
    ((": " : String).data ++ h.data)]
  exact contains_sub_append _ _ _

/-- Transport of the no-deeper-`.git`-entry hypothesis from prefixes of the
start directory to suffixes of its reversal. -/
theorem habove_reverse (fs : FS) (out_dir a : Path)
    (hdeeper : ∀ p : Path, p <+: out_dir → a <+: p → p ≠ a →
      find fs (p ++ [".git"]) = none) :
    ∀ s, s <:+ out_dir.reverse → a.reverse <:+ s → s ≠ a.reverse →
      find fs (s.reverse ++ [".git"]) = none := by
  intro s hsuf has hne
  apply hdeeper s.reverse (prefix_of_suffix_reverse hsuf)
  · have h2 : a.reverse <:+ s.reverse.reverse := by
      rw [List.reverse_reverse]
      exact has
    exact List.reverse_suffix.mp h2
  · intro he
    apply hne
    rw [← he, List.reverse_reverse]

/-! The claims. -/

/-- C6: for every start directory with no `.git` entry (directory or file)
anywhere in its ancestry up to the filesystem root, resolution terminates and
fails with the `GitDirNotFound` error. -/
theorem resolve_gitdir_no_git_error
    (fs : FS) (cwd out_dir : Path)
    (h : ∀ p : Path, p <+: out_dir → find fs (p ++ [".git"]) = none) :
    resolve_gitdir fs cwd out_dir = Except.error Error.GitDirNotFound := by
  unfold resolve_gitdir
  apply resolve_loop_none
  intro s hs
  exact h s.reverse (prefix_of_suffix_reverse hs)

theorem resolve_gitdir_no_git_error_witness :
    resolve_gitdir fs_no_git [] ["home", "user"] =
      Except.error Error.GitDirNotFound :=
  resolve_gitdir_no_git_error fs_no_git [] ["home", "user"]
    (fun p hp => by
      rcases prefix_cases_two hp with h1 | h1 | h1 <;> subst h1 <;> decide)

/-- C5 (amended): if the ancestor `a` of the start directory has a `.git`
subdirectory and no strictly deeper ancestor has any `.git` entry (directory
or regular file), resolution returns `a/.git` — the nearest `.git` directory,
regardless of how many levels below it the start directory lies. -/
theorem resolve_gitdir_nearest_dir
    (fs : FS) (cwd out_dir : Path) (a : Path)
    (ha : a <+: out_dir)
    (hdir : is_dir fs (a ++ [".git"]) = true)
    (hdeeper : ∀ p : Path, p <+: out_dir → a <+: p → p ≠ a →
      find fs (p ++ [".git"]) = none) :
    resolve_gitdir fs cwd out_dir = Except.ok (a ++ [".git"]) := by
  unfold resolve_gitdir
  have hdir' : is_dir fs (a.reverse.reverse ++ [".git"]) = true := by
    rw [List.reverse_reverse]
    exact hdir
  have hres := resolve_loop_dir fs cwd out_dir.reverse a.reverse
    (prefix_gives_reverse_suffix ha) hdir' (habove_reverse fs out_dir a hdeeper)
  rw [hres, List.reverse_reverse]

/-- C5, counterexample to the claim as stated: `/a/.git` is the (nearest and
only) `.git` directory at an ancestor of the start `/a/b`, yet resolution
returns `/x` — the target of the `.git` regular file at `/a/b` — not
`/a/.git`. -/
theorem resolve_gitdir_nearest_dir_cex :
    is_dir fs_intercepted (["a"] ++ [".git"]) = true ∧
    (["a"] : Path) <+: ["a", "b"] ∧
    is_dir fs_intercepted (["a", "b"] ++ [".git"]) = false ∧
    resolve_gitdir fs_intercepted [] ["a", "b"] = Except.ok ["x"] ∧
    resolve_gitdir fs_intercepted [] ["a", "b"] ≠ Except.ok (["a"] ++ [".git"]) :=
  ⟨by decide, ⟨["b"], rfl⟩, by decide, by decide, by decide⟩

theorem resolve_gitdir_nearest_dir_witness :
    resolve_gitdir fs_fresh_repo [] ["repo", "target", "debug"] =
      Except.ok (["repo"] ++ [".git"]) :=
  resolve_gitdir_nearest_dir fs_fresh_repo [] ["repo", "target", "debug"] ["repo"]
    ⟨["target", "debug"], rfl⟩ (by decide)
    (fun p hp hap hne => by
      rcases prefix_cases_three hp with h1 | h1 | h1 | h1 <;> subst h1
      · obtain ⟨t, ht⟩ := hap
        exact absurd ht (by simp)
      · exact absurd rfl hne
      · decide
      · decide)

/-- C7: when the first `.git` entry met while walking up is a regular file
whose trimmed content does not name an existing directory, resolution fails
with `GitDirNotFound` at once; no hypothesis constrains the ancestors above
it, so it does not continue walking up even when a `.git` directory exists
there. -/
theorem resolve_gitdir_bad_indirect_error
    (fs : FS) (cwd out_dir : Path) (a : Path) (c : String) (mode : Nat)
    (ha : a <+: out_dir)
    (hfile : find fs (a ++ [".git"]) = some (Entry.file c mode))
    (hdeeper : ∀ p : Path, p <+: out_dir → a <+: p → p ≠ a →
      find fs (p ++ [".git"]) = none)
    (hbad : is_dir fs (pathOfString cwd (trim_right_matches_nl_cr c)) = false) :
    resolve_gitdir fs cwd out_dir = Except.error Error.GitDirNotFound := by
  unfold resolve_gitdir
  have hfile' : find fs (a.reverse.reverse ++ [".git"]) =
      some (Entry.file c mode) := by
    rw [List.reverse_reverse]
    exact hfile
  have hres := resolve_loop_file fs cwd out_dir.reverse a.reverse c mode
    (prefix_gives_reverse_suffix ha) hfile' (habove_reverse fs out_dir a hdeeper)
  rw [hres, hbad]
  simp

theorem resolve_gitdir_bad_indirect_error_witness :
    is_dir fs_bad_indirect (["a"] ++ [".git"]) = true ∧
    resolve_gitdir fs_bad_indirect [] ["a", "b"] =
      Except.error Error.GitDirNotFound :=
  ⟨by decide,
   resolve_gitdir_bad_indirect_error fs_bad_indirect [] ["a", "b"] ["a", "b"]
     "/nonexistent" 0o644 (List.prefix_refl _) (by decide)
     (fun p hp hap hne => absurd (prefix_sandwich hap hp) hne)
     (by decide)⟩

/-- C3 (amended): for every `.git` indirection file whose content is a valid
path to an existing directory followed by the two-character terminator
`"\n\r"` (LF then CR — the only terminator `trim_right_matches("\n\r")`
removes), resolution returns that directory, with the terminator trimmed. -/
theorem resolve_gitdir_file_nl_cr_trimmed
    (fs : FS) (cwd out_dir : Path) (a : Path) (s : String) (mode : Nat)
    (ha : a <+: out_dir)
    (hfile : find fs (a ++ [".git"]) = some (Entry.file (s ++ "\n\r") mode))
    (hdeeper : ∀ p : Path, p <+: out_dir → a <+: p → p ≠ a →
      find fs (p ++ [".git"]) = none)
    (htrim : trim_right_matches_nl_cr s = s)
    (hgood : is_dir fs (pathOfString cwd s) = true) :
    resolve_gitdir fs cwd out_dir = Except.ok (pathOfString cwd s) := by
  unfold resolve_gitdir
  have hfile' : find fs (a.reverse.reverse ++ [".git"]) =
      some (Entry.file (s ++ "\n\r") mode) := by
    rw [List.reverse_reverse]
    exact hfile
  have hres := resolve_loop_file fs cwd out_dir.reverse a.reverse (s ++ "\n\r")
    mode (prefix_gives_reverse_suffix ha) hfile' (habove_reverse fs out_dir a hdeeper)
  rw [trim_right_matches_nl_cr_append, htrim] at hres
  rw [hres, hgood]
  simp

/-- C3, counterexample to the claim as stated: the indirection file content is
a valid path to an existing directory followed by a single LF terminator, but
`trim_right_matches("\n\r")` does not remove a bare `"\n"`, so resolution
fails instead of returning the directory. -/
theorem resolve_gitdir_lf_not_trimmed_cex :
    fileContent fs_indirect_lf ["repo", ".git"] =
      some ("/real/git/common/dir" ++ "\n") ∧
    is_dir fs_indirect_lf ["real", "git", "common", "dir"] = true ∧
    resolve_gitdir fs_indirect_lf [] ["repo"] =
      Except.error Error.GitDirNotFound ∧
    resolve_gitdir fs_indirect_lf [] ["repo"] ≠
      Except.ok ["real", "git", "common", "dir"] :=
  ⟨by decide, by decide, by decide, by decide⟩

theorem resolve_gitdir_file_nl_cr_trimmed_witness :
    resolve_gitdir fs_indirect_nl_cr [] ["repo"] =
      Except.ok (pathOfString [] "/real/git/common/dir") :=
  resolve_gitdir_file_nl_cr_trimmed fs_indirect_nl_cr [] ["repo"] ["repo"]
    "/real/git/common/dir" 0o644 (List.prefix_refl _) (by decide)
    (fun p hp hap hne => absurd (prefix_sandwich hap hp) hne)
    (by decide) (by decide)

/-- C2, counterexample to the claim as stated: with `/repo/.git` a regular
file containing `gitdir: /real/git/common/dir\n` and the directory
`/real/git/common/dir` existing, resolution fails with `GitDirNotFound`
(the code never strips the `gitdir: ` prefix, and a bare `"\n"` is not
trimmed), rather than returning `/real/git/common/dir`. -/
theorem resolve_gitdir_gitdir_prefix_cex :
    fileContent fs_indirect_prefixed ["repo", ".git"] =
      some "gitdir: /real/git/common/dir\n" ∧
    is_dir fs_indirect_prefixed ["real", "git", "common", "dir"] = true ∧
    resolve_gitdir fs_indirect_prefixed [] ["repo"] =
      Except.error Error.GitDirNotFound ∧
    resolve_gitdir fs_indirect_prefixed [] ["repo"] ≠
      Except.ok ["real", "git", "common", "dir"] :=
  ⟨by decide, by decide, by decide, by decide⟩

/-- C2 (amended): when the `.git` entry found while walking up is a regular
file whose entire content is the bare path `/real/git/common/dir` followed by
`"\n\r"` (no `gitdir: ` prefix; LF-CR is the terminator the code trims) and
that directory exists, resolution succeeds and returns
`/real/git/common/dir`. -/
theorem resolve_gitdir_bare_indirect_ok :
    fileContent fs_indirect_nl_cr ["repo", ".git"] =
      some "/real/git/common/dir\n\r" ∧
    resolve_gitdir fs_indirect_nl_cr [] ["repo"] =
      Except.ok ["real", "git", "common", "dir"] :=
  ⟨by decide, by decide⟩

/-- C4, counterexample to the claim as stated: in a generated hook script,
line 7 (in the spec's 1-based numbering, where line 3 carries the marker) is
the blank line separating the comment block from the commands, not `set -e`. -/
theorem write_script_line7_blank_cex :
    (rust_lines (write_script false false "0.4.3" "https://example.com"
      "/m" '/' "/out"))[6]? = some "" ∧
    (rust_lines (write_script false false "0.4.3" "https://example.com"
      "/m" '/' "/out"))[6]? ≠ some "set -e" :=
  ⟨by decide, by decide⟩

/-- C4 (amended): in every generated hook script, line 8 (1-based; 0-indexed
line 7) is exactly `set -e`. -/
theorem write_script_line8_set_e
    (rct rcc : Bool) (v h m : String) (sep : Char) (o : String)
    (hv : '\n' ∉ v.data) (hh : '\n' ∉ h.data) (hm : '\n' ∉ m.data)
    (hs : ¬sep = '\n') (ho : '\n' ∉ o.data)
    (rv : '\r' ∉ v.data) (rh : '\r' ∉ h.data) (rm : '\r' ∉ m.data)
    (rs : ¬sep = '\r') (ro : '\r' ∉ o.data) :
    (rust_lines (write_script rct rcc v h m sep o))[7]? = some "set -e" := by
  rw [rust_lines_write_script rct rcc v h m sep o hv hh hm hs ho rv rh rm rs ro]
  simp

theorem write_script_line8_set_e_witness :
    (rust_lines (write_script false false "0.4.3" "https://example.com"
      "/m" '/' "/out"))[7]? = some "set -e" :=
  write_script_line8_set_e false false "0.4.3" "https://example.com" "/m" '/'
    "/out" (by decide) (by decide) (by decide) (by decide) (by decide)
    (by decide) (by decide) (by decide) (by decide) (by decide)

/-- C10: when no command-group feature is enabled, installation still writes
a hook script consisting of the full header (shebang, comment block with
version marker), the blank line, and `set -e`, followed only by the blank
line left by the trailing newline — no commands. -/
theorem install_no_feature_groups
    (fs : FS) (cwd out_dir : Path) (g : Path) (hook : String) (mode : Nat)
    (v h m : String) (sep : Char) (ods : String)
    (hres : resolve_gitdir fs cwd out_dir = Except.ok g)
    (hnew : hook_already_exists v fs (g ++ ["hooks", hook]) = false)
    (hcreate : create_script fs (g ++ ["hooks", hook]) = Except.ok mode)
    (hv : '\n' ∉ v.data) (hh : '\n' ∉ h.data) (hm : '\n' ∉ m.data)
    (hs : ¬sep = '\n') (ho : '\n' ∉ ods.data)
    (rv : '\r' ∉ v.data) (rh : '\r' ∉ h.data) (rm : '\r' ∉ m.data)
    (rs : ¬sep = '\r') (ro : '\r' ∉ ods.data) :
    install fs cwd out_dir false false v h m sep ods hook =
      Except.ok (set_entry fs (g ++ ["hooks", hook])
        (Entry.file (write_script false false v h m sep ods) mode)) ∧
    rust_lines (write_script false false v h m sep ods) =
      ["#!/bin/sh", "#",
       "# This hook was set by cargo-husky v" ++ (v ++ (": " ++ h)),
       "# Generated by script " ++ (m ++ (String.singleton sep ++ "build.rs")),
       "# Output at " ++ ods, "#", "", "set -e", ""] := by
  constructor
  · simp only [install, hres, hnew, hcreate]
    rfl
  · rw [rust_lines_write_script false false v h m sep ods hv hh hm hs ho
      rv rh rm rs ro]
    rfl

theorem install_no_feature_groups_witness :
    install fs_fresh_repo [] ["repo", "target", "debug"] false false "0.4.3"
        "https://example.com" "/m" '/' "/out" "pre-push" =
      Except.ok (set_entry fs_fresh_repo (["repo", ".git"] ++ ["hooks", "pre-push"])
        (Entry.file (write_script false false "0.4.3" "https://example.com"
          "/m" '/' "/out") 0o755)) ∧
    rust_lines (write_script false false "0.4.3" "https://example.com"
      "/m" '/' "/out") =
      ["#!/bin/sh", "#",
       "# This hook was set by cargo-husky v" ++
         ("0.4.3" ++ (": " ++ "https://example.com")),
       "# Generated by script " ++ ("/m" ++ (String.singleton '/' ++ "build.rs")),
       "# Output at " ++ "/out", "#", "", "set -e", ""] :=
  install_no_feature_groups fs_fresh_repo [] ["repo", "target", "debug"]
    ["repo", ".git"] "pre-push" 0o755 "0.4.3" "https://example.com" "/m" '/'
    "/out" (by decide) (by decide) (by decide)
    (by decide) (by decide) (by decide) (by decide) (by decide)
    (by decide) (by decide) (by decide) (by decide) (by decide)

/-- C8: the already-installed check is a total boolean — it reports
`false` (never an error) when the file is absent (or is not a readable
regular file) or has fewer than three lines; and when the third line exists
but lacks the current version marker, installation overwrites the file. -/
theorem hook_check_no_error_and_overwrite
    (v : String) (fs : FS) (cwd out_dir : Path) (g : Path) (hook : String)
    (rct rcc : Bool) (h m : String) (sep : Char) (ods : String) :
    (∀ p : Path, fileContent fs p = none → hook_already_exists v fs p = false) ∧
    (∀ (p : Path) (c : String), fileContent fs p = some c →
      (rust_lines c).length < 3 → hook_already_exists v fs p = false) ∧
    (resolve_gitdir fs cwd out_dir = Except.ok g →
      ∀ (c line : String) (mode : Nat),
        fileContent fs (g ++ ["hooks", hook]) = some c →
        (rust_lines c)[2]? = some line →
        str_contains line ("set by cargo-husky v" ++ v) = false →
        create_script fs (g ++ ["hooks", hook]) = Except.ok mode →
        install fs cwd out_dir rct rcc v h m sep ods hook =
          Except.ok (set_entry fs (g ++ ["hooks", hook])
            (Entry.file (write_script rct rcc v h m sep ods) mode))) := by
  refine ⟨?_, ?_, ?_⟩
  · intro p hfc
    exact hook_already_exists_of_none v fs p hfc
  · intro p c hfc hlen
    refine hook_already_exists_of_no_line v fs p c hfc ?_
    exact List.getElem?_eq_none (by omega)
  · intro hres c line mode hfc hline hmiss hcreate
    have hhae : hook_already_exists v fs (g ++ ["hooks", hook]) = false := by
      rw [hook_already_exists_of_line v fs _ c line hfc hline]
      exact hmiss
    simp only [install, hres, hhae, hcreate]
    rfl

theorem hook_check_no_error_and_overwrite_witness :
    hook_already_exists "0.4.3" fs_existing_hook ["nope"] = false ∧
    hook_already_exists "0.4.3" fs_existing_hook ["repo", "short.txt"] = false ∧
    install fs_existing_hook [] ["repo"] false false "0.4.3"
        "https://example.com" "/m" '/' "/out" "pre-push" =
      Except.ok (set_entry fs_existing_hook
        (["repo", ".git"] ++ ["hooks", "pre-push"])
        (Entry.file (write_script false false "0.4.3" "https://example.com"
          "/m" '/' "/out") 0o644)) :=
  ⟨(hook_check_no_error_and_overwrite "0.4.3" fs_existing_hook [] ["repo"]
      ["repo", ".git"] "pre-push" false false "https://example.com" "/m" '/'
      "/out").1 ["nope"] (by decide),
   (hook_check_no_error_and_overwrite "0.4.3" fs_existing_hook [] ["repo"]
      ["repo", ".git"] "pre-push" false false "https://example.com" "/m" '/'
      "/out").2.1 ["repo", "short.txt"] "hi" (by decide) (by decide),
   (hook_check_no_error_and_overwrite "0.4.3" fs_existing_hook [] ["repo"]
      ["repo", ".git"] "pre-push" false false "https://example.com" "/m" '/'
      "/out").2.2 (by decide) "#!/bin/sh\n#\n# hand written hook\n"
      "# hand written hook" 0o644 (by decide) (by decide) (by decide)
      (by decide)⟩

/-- C9, counterexample to the claim as stated: the hook file at
`/repo/.git/hooks/pre-push` already exists with mode `0644` and no marker;
installation truncates and rewrites its content, but the persisted file keeps
mode `0644` — the mode passed to `OpenOptions::mode(0o755)` applies only to
newly created files, so the persisted script is not made executable. -/
theorem install_overwrite_keeps_mode_cex :
    install fs_existing_hook [] ["repo"] false false "0.4.3"
        "https://example.com" "/m" '/' "/out" "pre-push" =
      Except.ok (set_entry fs_existing_hook ["repo", ".git", "hooks", "pre-push"]
        (Entry.file (write_script false false "0.4.3" "https://example.com"
          "/m" '/' "/out") 0o644)) ∧
    find (set_entry fs_existing_hook ["repo", ".git", "hooks", "pre-push"]
        (Entry.file (write_script false false "0.4.3" "https://example.com"
          "/m" '/' "/out") 0o644))
      ["repo", ".git", "hooks", "pre-push"] ≠
      some (Entry.file (write_script false false "0.4.3" "https://example.com"
        "/m" '/' "/out") 0o755) :=
  ⟨by decide, by decide⟩

/-- C9 (amended): when the hook is determined not already installed, the file
is opened with create/truncate and mode `0o755`: if the file did not exist it
is created with permission bits `0755` (executable); if a regular file
already existed, its content is truncated and replaced by the generated
script but its previous permission bits are kept. -/
theorem install_create_modes
    (fs : FS) (cwd out_dir : Path) (g : Path) (hook : String)
    (rct rcc : Bool) (v h m : String) (sep : Char) (ods : String)
    (hres : resolve_gitdir fs cwd out_dir = Except.ok g)
    (hnew : hook_already_exists v fs (g ++ ["hooks", hook]) = false)
    (hparent : is_dir fs (g ++ ["hooks"]) = true) :
    (find fs (g ++ ["hooks", hook]) = none →
      install fs cwd out_dir rct rcc v h m sep ods hook =
        Except.ok (set_entry fs (g ++ ["hooks", hook])
          (Entry.file (write_script rct rcc v h m sep ods) 0o755))) ∧
    (∀ (c : String) (pm : Nat),
      find fs (g ++ ["hooks", hook]) = some (Entry.file c pm) →
      install fs cwd out_dir rct rcc v h m sep ods hook =
        Except.ok (set_entry fs (g ++ ["hooks", hook])
          (Entry.file (write_script rct rcc v h m sep ods) pm))) := by
  constructor
  · intro habsent
    have hcreate : create_script fs (g ++ ["hooks", hook]) = Except.ok 0o755 := by
      simp [create_script, hparent, habsent]
    simp only [install, hres, hnew, hcreate]
    rfl
  · intro c pm hsome
    have hcreate : create_script fs (g ++ ["hooks", hook]) = Except.ok pm := by
      simp [create_script, hparent, hsome]
    simp only [install, hres, hnew, hcreate]
    rfl

theorem install_create_modes_witness :
    install fs_fresh_repo [] ["repo", "target", "debug"] false false "0.4.3"
        "https://example.com" "/m" '/' "/out" "pre-push" =
      Except.ok (set_entry fs_fresh_repo (["repo", ".git"] ++ ["hooks", "pre-push"])
        (Entry.file (write_script false false "0.4.3" "https://example.com"
          "/m" '/' "/out") 0o755)) ∧
    install fs_existing_hook [] ["repo"] false false "0.4.3"
        "https://example.com" "/m" '/' "/out" "pre-push" =
      Except.ok (set_entry fs_existing_hook (["repo", ".git"] ++ ["hooks", "pre-push"])
        (Entry.file (write_script false false "0.4.3" "https://example.com"
          "/m" '/' "/out") 0o644)) :=
  ⟨(install_create_modes fs_fresh_repo [] ["repo", "target", "debug"]
      ["repo", ".git"] "pre-push" false false "0.4.3" "https://example.com"
      "/m" '/' "/out" (by decide) (by decide) (by decide)).1 (by decide),
   (install_create_modes fs_existing_hook [] ["repo"] ["repo", ".git"]
      "pre-push" false false "0.4.3" "https://example.com" "/m" '/' "/out"
      (by decide) (by decide) (by decide)).2
      "#!/bin/sh\n#\n# hand written hook\n" 0o644 (by decide)⟩

/-- C1: installing the same hook name twice with the same tool version writes
the hook file exactly once.  The first install (hook not yet installed)
writes the generated script; the script's third line (0-indexed line 2)
contains the marker substring `set by cargo-husky v<version>`; and the second
install returns the filesystem unchanged — a no-op, the file bytes
untouched. -/
theorem install_idempotent_same_version
    (fs : FS) (cwd out_dir : Path) (rct rcc : Bool)
    (v h m : String) (sep : Char) (ods : String) (hook : String)
    (g : Path) (mode : Nat)
    (hres : resolve_gitdir fs cwd out_dir = Except.ok g)
    (hnew : hook_already_exists v fs (g ++ ["hooks", hook]) = false)
    (hcreate : create_script fs (g ++ ["hooks", hook]) = Except.ok mode)
    (hhook : hook ≠ ".git")
    (hv : '\n' ∉ v.data) (hh : '\n' ∉ h.data) (hm : '\n' ∉ m.data)
    (hsn : ¬sep = '\n') (ho : '\n' ∉ ods.data)
    (rv : '\r' ∉ v.data) (rh : '\r' ∉ h.data) (rm : '\r' ∉ m.data)
    (rs : ¬sep = '\r') (ro : '\r' ∉ ods.data) :
    install fs cwd out_dir rct rcc v h m sep ods hook =
      Except.ok (set_entry fs (g ++ ["hooks", hook])
        (Entry.file (write_script rct rcc v h m sep ods) mode)) ∧
    (rust_lines (write_script rct rcc v h m sep ods))[2]? =
      some ("# This hook was set by cargo-husky v" ++ (v ++ (": " ++ h))) ∧
    str_contains ("# This hook was set by cargo-husky v" ++ (v ++ (": " ++ h)))
      ("set by cargo-husky v" ++ v) = true ∧
    install (set_entry fs (g ++ ["hooks", hook])
        (Entry.file (write_script rct rcc v h m sep ods) mode))
      cwd out_dir rct rcc v h m sep ods hook =
      Except.ok (set_entry fs (g ++ ["hooks", hook])
        (Entry.file (write_script rct rcc v h m sep ods) mode)) := by
  have hline2 : (rust_lines (write_script rct rcc v h m sep ods))[2]? =
      some ("# This hook was set by cargo-husky v" ++ (v ++ (": " ++ h))) := by
    rw [rust_lines_write_script rct rcc v h m sep ods hv hh hm hsn ho
      rv rh rm rs ro]
    rfl
  have hmark := marker_line_contains v h
  refine ⟨?_, hline2, hmark, ?_⟩
  · simp only [install, hres, hnew, hcreate]
    rfl
  · have hne_git : ∀ d : Path, d ++ [".git"] ≠ g ++ ["hooks", hook] := by
      intro d he
      have h1 : (d ++ [".git"]).getLast? = some ".git" := by simp
      rw [he] at h1
      have h2 : (g ++ ["hooks", hook]).getLast? = some hook := by simp
      rw [h2] at h1
      injection h1 with h3
      exact hhook h3
    have hgit : ∀ d : Path,
        find (set_entry fs (g ++ ["hooks", hook])
          (Entry.file (write_script rct rcc v h m sep ods) mode))
          (d ++ [".git"]) = find fs (d ++ [".git"]) :=
      fun d => find_set_entry_ne fs _ _ _ (hne_git d)
    have hgne : g ≠ g ++ ["hooks", hook] := by
      intro he
      have hlen := congrArg List.length he
      simp at hlen
    have hg : find (set_entry fs (g ++ ["hooks", hook])
        (Entry.file (write_script rct rcc v h m sep ods) mode)) g =
        find fs g :=
      find_set_entry_ne fs _ _ _ hgne
    have hres' : resolve_gitdir (set_entry fs (g ++ ["hooks", hook])
        (Entry.file (write_script rct rcc v h m sep ods) mode)) cwd out_dir =
        Except.ok g := by
      unfold resolve_gitdir at hres ⊢
      exact resolve_loop_congr fs _ cwd g hgit hg out_dir.reverse hres
    have hfc : fileContent (set_entry fs (g ++ ["hooks", hook])
        (Entry.file (write_script rct rcc v h m sep ods) mode))
        (g ++ ["hooks", hook]) =
        some (write_script rct rcc v h m sep ods) := by
      unfold fileContent
      rw [find_set_entry_self]
    have hhae : hook_already_exists v (set_entry fs (g ++ ["hooks", hook])
        (Entry.file (write_script rct rcc v h m sep ods) mode))
        (g ++ ["hooks", hook]) = true := by
      rw [hook_already_exists_of_line v _ _ _ _ hfc hline2]
      exact hmark
    simp only [install, hres', hhae]
    rfl

theorem install_idempotent_same_version_witness :
    install fs_fresh_repo [] ["repo", "target", "debug"] true false "0.4.3"
        "https://example.com" "/m" '/' "/out" "pre-push" =
      Except.ok (set_entry fs_fresh_repo (["repo", ".git"] ++ ["hooks", "pre-push"])
        (Entry.file (write_script true false "0.4.3" "https://example.com"
          "/m" '/' "/out") 0o755)) ∧
    (rust_lines (write_script true false "0.4.3" "https://example.com"
      "/m" '/' "/out"))[2]? =
      some ("# This hook was set by cargo-husky v" ++
        ("0.4.3" ++ (": " ++ "https://example.com"))) ∧
    str_contains ("# This hook was set by cargo-husky v" ++
        ("0.4.3" ++ (": " ++ "https://example.com")))
      ("set by cargo-husky v" ++ "0.4.3") = true ∧
    install (set_entry fs_fresh_repo (["repo", ".git"] ++ ["hooks", "pre-push"])
        (Entry.file (write_script true false "0.4.3" "https://example.com"
          "/m" '/' "/out") 0o755))
      [] ["repo", "target", "debug"] true false "0.4.3" "https://example.com"
      "/m" '/' "/out" "pre-push" =
      Except.ok (set_entry fs_fresh_repo (["repo", ".git"] ++ ["hooks", "pre-push"])
        (Entry.file (write_script true false "0.4.3" "https://example.com"
          "/m" '/' "/out") 0o755)) :=
  install_idempotent_same_version fs_fresh_repo [] ["repo", "target", "debug"]
    true false "0.4.3" "https://example.com" "/m" '/' "/out" "pre-push"
    ["repo", ".git"] 0o755 (by decide) (by decide) (by decide) (by decide)
    (by decide) (by decide) (by decide) (by decide) (by decide)
    (by decide) (by decide) (by decide) (by decide) (by decide)

end CargoHusky

